import Mathlib

/-!
Verification of the ctl control-tree engine (src/libpmemobj/ctl.c):
a shallow embedding of the namespace node tree, the dotted-path query
resolver with its per-query index list, the read/write dispatch contract,
the string query provider and the config loader, together with theorems
about the behaviour of those operations.
-/

namespace CtlSpec

/-- Maximum number of entries in the ctl root array (`#define CTL_MAX_ENTRIES 100`). -/
def CTL_MAX_ENTRIES : Nat := 100

/-- The `errno` code `EINVAL` (invalid argument), set by `ctl_query` on failure. -/
def E_INVAL : Nat := 22

/-- The `errno` code `ENOMEM`, set by a failing `Malloc`/`Strdup`. -/
def E_NOMEM : Nat := 12

/-- Query origin tag (`enum ctl_query_type`): a direct programmatic call
(`CTL_QUERY_PROGRAMMATIC`) or a batched config load (`CTL_QUERY_CONFIG_INPUT`). -/
inductive CtlQueryType where
  | programmatic
  | configInput
deriving DecidableEq

/-- Node kind of a `struct ctl_node`:
`CTL_NODE_NAMED`, `CTL_NODE_INDEXED` or `CTL_NODE_LEAF`. -/
inductive CtlNodeType where
  | named
  | indexed
  | leaf
deriving DecidableEq

/-- One entry of the per-query index list (`struct ctl_index`): the parsed
numeric value and the name of the node the segment matched. -/
structure CtlIndex where
  value : Int
  name : String
deriving DecidableEq

/-- Type of a leaf read/write callback: it receives the query origin tag, the
opaque argument and the index list, and returns an integer status.  The pool
handle is opaque and passed through unchanged, so it is omitted from the
embedding. -/
def Callback : Type := CtlQueryType → String → List CtlIndex → Int

/-- A node of the ctl tree (`struct ctl_node`): name, kind, child array
(the NULL-terminated sibling array is embedded as a list), and the optional
read/write callbacks. -/
inductive CtlNode where
  | mk : String → CtlNodeType → List CtlNode → Option Callback → Option Callback → CtlNode

/-- The `name` field of a node. -/
def CtlNode.name : CtlNode → String
  | .mk nm _ _ _ _ => nm

/-- The `type` field of a node. -/
def CtlNode.ty : CtlNode → CtlNodeType
  | .mk _ t _ _ _ => t

/-- The `children` field of a node. -/
def CtlNode.children : CtlNode → List CtlNode
  | .mk _ _ ch _ _ => ch

/-- The `read_cb` field of a node. -/
def CtlNode.read_cb : CtlNode → Option Callback
  | .mk _ _ _ r _ => r

/-- The `write_cb` field of a node. -/
def CtlNode.write_cb : CtlNode → Option Callback
  | .mk _ _ _ _ w => w

/-! ### `strtol` with base 0, and `strtok`-style splitting -/

/-- The characters treated as whitespace by `strtol` (C `isspace`). -/
def isSpaceC (c : Char) : Bool :=
  c == ' ' || c == '\t' || c == '\n' || c == '\r' || c == '\x0b' || c == '\x0c'

/-- Value of `c` as a digit in `base` (8, 10 or 16), or `none` if `c` is not a
valid digit in that base. -/
def digitVal (base : Nat) (c : Char) : Option Nat :=
  let v : Nat :=
    if '0' ≤ c ∧ c ≤ '9' then c.toNat - '0'.toNat
    else if 'a' ≤ c ∧ c ≤ 'f' then c.toNat - 'a'.toNat + 10
    else if 'A' ≤ c ∧ c ≤ 'F' then c.toNat - 'A'.toNat + 10
    else 99
  if v < base then some v else none

/-- Longest prefix of digits valid in `base`, together with the rest. -/
def takeDigs (base : Nat) : List Char → List Nat × List Char
  | [] => ([], [])
  | c :: cs =>
    match digitVal base c with
    | some v =>
      let (ds, r) := takeDigs base cs
      (v :: ds, r)
    | none => ([], c :: cs)

/-- Value of a digit string read most-significant first. -/
def digitsToNat (base : Nat) (ds : List Nat) : Nat :=
  ds.foldl (fun a d => a * base + d) 0

/-- `LONG_MAX` on the 64-bit targets the library is built for. -/
def LONG_MAX : Int := 2 ^ 63 - 1

/-- `LONG_MIN` on the 64-bit targets the library is built for. -/
def LONG_MIN : Int := -(2 ^ 63)

/-- `strtol` clamps an out-of-range value to `LONG_MAX`/`LONG_MIN`. -/
def clampLong (v : Int) : Int :=
  if v > LONG_MAX then LONG_MAX else if v < LONG_MIN then LONG_MIN else v

/-- `strtol(s, &endptr, 0)`: skips whitespace, reads an optional sign, detects
the base from a `0x`/`0` prefix, and consumes the longest valid digit string.
Returns the (clamped) value together with the number of characters consumed;
a consumed count of `0` corresponds to `endptr == s` (no conversion). -/
def strtol0 (s : List Char) : Int × Nat :=
  let rest := s.dropWhile isSpaceC
  let wsLen := s.length - rest.length
  let (sgn, afterSign, signLen) : Int × List Char × Nat :=
    match rest with
    | '+' :: r => (1, r, 1)
    | '-' :: r => (-1, r, 1)
    | _ => (1, rest, 0)
  let (base, preLen, subject) : Nat × Nat × List Char :=
    match afterSign with
    | '0' :: x :: r =>
      if (x == 'x' || x == 'X') &&
          (match r with | c :: _ => (digitVal 16 c).isSome | [] => false)
      then (16, 2, r)
      else (8, 0, afterSign)
    | _ => (10, 0, afterSign)
  let (ds, _) := takeDigs base subject
  if ds = [] then (0, 0)
  else (clampLong (sgn * (digitsToNat base ds : Int)),
        wsLen + signLen + preLen + ds.length)

/-- Split a character list at every occurrence of `sep`, keeping empty pieces
(the raw split underlying `strtok_r`). -/
def splitSeps (sep : Char) : List Char → List (List Char)
  | [] => [[]]
  | c :: cs =>
    let r := splitSeps sep cs
    if c == sep then [] :: r
    else
      match r with
      | [] => [[c]]
      | t :: ts => (c :: t) :: ts

/-- The token sequence produced by repeated `strtok_r(·, sep, ·)` calls:
the nonempty pieces of the split, in order. -/
def strTokens (sep : Char) (s : String) : List (List Char) :=
  (splitSeps sep s.data).filter (fun t => t ≠ [])

/-- Tokenization of a query path on `CTL_QUERY_NODE_SEPARATOR` (`"."`). -/
def tokenizePath (s : String) : List (List Char) :=
  strTokens '.' s

/-! ### The query resolver -/

/-- The scan of the current sibling array (the `for (n = &nodes[0]; ...)` loop
in `ctl_query`): a node matches when a pending index exists and the node is
`CTL_NODE_INDEXED`, or when its name equals the segment text. -/
def ctl_find (pending : Bool) (seg : List Char) : List CtlNode → Option CtlNode
  | [] => none
  | n :: ns =>
    if (pending && (n.ty == CtlNodeType.indexed)) || (n.name.data == seg)
    then some n
    else ctl_find pending seg ns

/-- Result of the resolver loop: either the loop finished (`ok`, carrying the
current sibling array, the last matched node, the index list and the running
allocation count) or a `goto` to the cleanup label was taken (`err`, carrying
the `errno` value set, the index list to be freed and the allocation count). -/
inductive RRes where
  | ok (cur : List CtlNode) (n : Option CtlNode) (idxs : List CtlIndex) (allocs : Nat)
  | err (e : Option Nat) (idxs : List CtlIndex) (allocs : Nat)

/-- Allocation count of a resolver result. -/
def RRes.allocsOf : RRes → Nat
  | .ok _ _ _ a => a
  | .err _ _ a => a

/-- Index list of a resolver result. -/
def RRes.idxsOf : RRes → List CtlIndex
  | .ok _ _ i _ => i
  | .err _ i _ => i

/-- The segment loop of `ctl_query` (ctl.c lines 131–158).  For each segment:
run `strtol` with base 0; if any characters were consumed (`endptr !=
node_name`) allocate a pending index entry (consulting the allocation oracle,
as `Malloc` may fail) and push it at the head of the index list; scan the
sibling array; on a match, record the matched node's name in the pending entry
and descend into its children; on no match set `errno = EINVAL` and bail out.
The pending entry of a failed scan is already on the list and is freed by the
cleanup code; its `name` field is never written, embedded here as `""`. -/
def resolveSegs (oracle : Nat → Bool) :
    List CtlNode → List (List Char) → Option CtlNode → List CtlIndex → Nat → RRes
  | nodes, [], nOpt, idxs, k => .ok nodes nOpt idxs k
  | nodes, seg :: rest, _, idxs, k =>
    if (strtol0 seg).2 != 0 then
      if oracle k then
        match ctl_find true seg nodes with
        | none => .err (some E_INVAL) (⟨(strtol0 seg).1, ""⟩ :: idxs) (k + 1)
        | some n =>
          resolveSegs oracle n.children rest (some n)
            (⟨(strtol0 seg).1, n.name⟩ :: idxs) (k + 1)
      else .err (some E_NOMEM) idxs k
    else
      match ctl_find false seg nodes with
      | none => .err (some E_INVAL) idxs k
      | some n => resolveSegs oracle n.children rest (some n) idxs k

/-! ### Dispatch and the public query entry point -/

/-- Record of one leaf-callback invocation: whether it was the write callback,
the origin tag, the opaque argument and the index list it received. -/
structure CbCall where
  isWrite : Bool
  qt : CtlQueryType
  arg : String
  idxs : List CtlIndex
deriving DecidableEq

/-- Observable outcome of one `ctl_query` call: the returned status, the
`errno` value set by the call (if any), the callback invocations in order, and
the number of heap allocations and frees the call performed. -/
structure QueryOutcome where
  ret : Int
  errno : Option Nat
  calls : List CbCall
  allocs : Nat
  frees : Nat

/-- Placeholder used for a callback pointer that the arity checks guarantee is
never the one being dereferenced. -/
def defaultCb : Callback := fun _ _ _ => 0

/-- The dispatch step of `ctl_query` (ctl.c lines 173–179):
`ret = 0; if (read_arg) ret = read_cb(...); if (write_arg && ret == 0)
ret = write_cb(...)`. -/
def ctl_dispatch (n : CtlNode) (qt : CtlQueryType) (ra wa : Option String)
    (idxs : List CtlIndex) : Int × List CbCall :=
  match ra, wa with
  | some a, none => ((n.read_cb.getD defaultCb) qt a idxs, [⟨false, qt, a, idxs⟩])
  | some a, some b =>
    let r1 := (n.read_cb.getD defaultCb) qt a idxs
    if r1 = 0 then
      ((n.write_cb.getD defaultCb) qt b idxs, [⟨false, qt, a, idxs⟩, ⟨true, qt, b, idxs⟩])
    else (r1, [⟨false, qt, a, idxs⟩])
  | none, some b => ((n.write_cb.getD defaultCb) qt b idxs, [⟨true, qt, b, idxs⟩])
  | none, none => (0, [])

/-- `ctl_query` (ctl.c lines 103–192), instrumented with an allocation oracle
(`oracle k` tells whether the `k`-th allocation of the call succeeds; `Strdup`
of the path is allocation `0`).  On `Strdup` failure the call returns `-1`
having allocated and freed nothing.  Otherwise the path is tokenized, the
resolver loop runs, the arity checks reject calls with a missing matched node,
an argument without the corresponding callback, or no argument at all
(`errno = EINVAL`), and otherwise the leaf callbacks are dispatched.  Every
exit path frees all index entries plus the duplicated path string. -/
def ctl_query_alloc (oracle : Nat → Bool) (root : List CtlNode)
    (qt : CtlQueryType) (nm : String) (ra wa : Option String) : QueryOutcome :=
  if oracle 0 then
    match resolveSegs oracle root (tokenizePath nm) none [] 1 with
    | .err e idxs k =>
      { ret := -1, errno := e, calls := [], allocs := k, frees := idxs.length + 1 }
    | .ok _ nOpt idxs k =>
      match nOpt with
      | none =>
        { ret := -1, errno := some E_INVAL, calls := [], allocs := k,
          frees := idxs.length + 1 }
      | some n =>
        if (ra.isSome && n.read_cb.isNone) || (wa.isSome && n.write_cb.isNone)
            || (ra.isNone && wa.isNone) then
          { ret := -1, errno := some E_INVAL, calls := [], allocs := k,
            frees := idxs.length + 1 }
        else
          let rc := ctl_dispatch n qt ra wa idxs
          { ret := rc.1, errno := none, calls := rc.2, allocs := k,
            frees := idxs.length + 1 }
  else { ret := -1, errno := some E_NOMEM, calls := [], allocs := 0, frees := 0 }

/-- The always-succeeding allocation oracle. -/
def oracleT : Nat → Bool := fun _ => true

/-- `ctl_query` with every allocation succeeding (the ordinary case). -/
def ctl_query (root : List CtlNode) (qt : CtlQueryType) (nm : String)
    (ra wa : Option String) : QueryOutcome :=
  ctl_query_alloc oracleT root qt nm ra wa

/-! ### Registration (`struct ctl`, `ctl_new`, `ctl_register_module_node`) -/

/-- `struct ctl`: the fixed-capacity root array (vacant slots are `none`,
mirroring the zero-initialized `name == NULL` sentinel) and `first_free`. -/
structure Ctl where
  root : List (Option CtlNode)
  first_free : Nat

/-- `ctl_new`: a zeroed structure, `first_free = 0`. -/
def ctl_new : Ctl :=
  { root := List.replicate CTL_MAX_ENTRIES none, first_free := 0 }

/-- `ctl_register_module_node` (ctl.c lines 207–214): writes a `CTL_NODE_NAMED`
node with the supplied children at `root[first_free]` and increments
`first_free`.  The source performs no capacity check; a store past the end of
the fixed array is undefined behaviour in C and is embedded here as
`List.set`, which leaves the list unchanged for an out-of-range index. -/
def ctl_register_module_node (c : Ctl) (nm : String) (children : List CtlNode) : Ctl :=
  { root := c.root.set c.first_free (some (.mk nm CtlNodeType.named children none none)),
    first_free := c.first_free + 1 }

/-- `n` registrations of a module node into a fresh ctl structure. -/
def regN : Nat → Ctl
  | 0 => ctl_new
  | n + 1 => ctl_register_module_node (regN n) "m" []

/-! ### String provider and config loader -/

/-- Result of `ctl_string_provider_parse_query`: `1` (provider exhausted),
`-1` (malformed entry) or `0` with the name/value pair. -/
inductive PQRes where
  | exhausted
  | errFmt
  | okq (n v : String)
deriving DecidableEq

/-- The `strtok_r` field split of one entry on `CTL_NAME_VALUE_SEPARATOR`
(`"="`). -/
def splitFields (e : List Char) : List (List Char) :=
  (splitSeps '=' e).filter (fun t => t ≠ [])

/-- `ctl_string_provider_parse_query` (ctl.c lines 247–268): a `NULL` buffer
means the provider is exhausted; otherwise the entry is split on `"="` and
must yield a name token and a value token with no third token. -/
def ctl_string_provider_parse_query (qbuf : Option (List Char)) : PQRes :=
  match qbuf with
  | none => .exhausted
  | some e =>
    let toks := splitFields e
    match toks.get? 0 with
    | none => .errFmt
    | some nm =>
      match toks.get? 1 with
      | none => .errFmt
      | some v =>
        match toks.get? 2 with
        | some _ => .errFmt
        | none => .okq (String.mk nm) (String.mk v)

/-- The loop of `ctl_load_config` (ctl.c lines 228–241) over the entry
sequence the string provider yields: each entry is parsed and submitted as a
write-only query (`ctl_exec_query_config` passes the value as the write
argument); the loop stops at the first nonzero result; an exhausted provider
yields `1`.  The accumulated callback trace is returned alongside. -/
def loadEntries (root : List CtlNode) : List (List Char) → Int × List CbCall
  | [] => (1, [])
  | e :: rest =>
    match ctl_string_provider_parse_query (some e) with
    | .exhausted => (1, [])
    | .errFmt => (-1, [])
    | .okq n v =>
      let out := ctl_query root CtlQueryType.configInput n none (some v)
      if out.ret = 0 then
        let rt := loadEntries root rest
        (rt.1, out.calls ++ rt.2)
      else (out.ret, out.calls)

/-- `ctl_load_config` over a string provider created from `buf`: the provider
tokenizes `buf` on `CTL_STRING_QUERY_SEPARATOR` (`";"`), the loop runs, and
the final loop result `r` is mapped by `return r >= 0 ? 0 : -1`. -/
def ctl_load_config (root : List CtlNode) (buf : String) : Int × List CbCall :=
  let rt := loadEntries root (strTokens ';' buf)
  (if rt.1 ≥ 0 then 0 else -1, rt.2)

/-! ### Auxiliary predicates for the theorems -/

/-- Membership of a node somewhere in a forest (the root array or any
descendant sibling array). -/
inductive MemForest : CtlNode → List CtlNode → Prop where
  | here {x : CtlNode} {ns : List CtlNode} : x ∈ ns → MemForest x ns
  | via {x n : CtlNode} {ns : List CtlNode} :
      n ∈ ns → MemForest x n.children → MemForest x ns

/-- No node name anywhere in the forest has a numeric prefix (so `strtol`
consumes nothing of it).  This is the namespace-construction convention the
spec calls "index segments and named segments are mutually exclusive at each
tree level". -/
def NoNumNames (root : List CtlNode) : Prop :=
  ∀ x, MemForest x root → (strtol0 x.name.data).2 = 0

/-- An entry the config loader processes without failure: it parses into a
name/value pair and the resulting write-only query returns `0`. -/
def EntryOk (root : List CtlNode) (e : List Char) : Prop :=
  ∃ n v, ctl_string_provider_parse_query (some e) = PQRes.okq n v ∧
    (ctl_query root CtlQueryType.configInput n none (some v)).ret = 0

/-! ### Concrete trees used by witnesses and counterexamples -/

/-- A read callback returning `0`. -/
def rcb0 : Callback := fun _ _ _ => 0

/-- A write callback returning `0`. -/
def wcb0 : Callback := fun _ _ _ => 0

/-- A write callback returning the positive status `2`. -/
def wcb2 : Callback := fun _ _ _ => 2

/-- The leaf `"size"` of the concrete scenario, with a read callback. -/
def sizeNode (rcb : Callback) : CtlNode :=
  .mk "size" CtlNodeType.leaf [] (some rcb) none

/-- The indexed node `"arena"` of the concrete scenario. -/
def arenaNode (rcb : Callback) : CtlNode :=
  .mk "arena" CtlNodeType.indexed [sizeNode rcb] none none

/-- The concrete scenario tree: root → Named `"heap"` → Indexed `"arena"` →
Leaf `"size"` with read callback `rcb`. -/
def heapTree (rcb : Callback) : List CtlNode :=
  [.mk "heap" CtlNodeType.named [arenaNode rcb] none none]

/-- The concrete scenario tree with the trivial read callback. -/
def heapT : List CtlNode := heapTree rcb0

/-- A tree whose only root entry is a leaf named `"3x"` (a partially numeric
name). -/
def t6 : List CtlNode := [.mk "3x" CtlNodeType.leaf [] (some rcb0) none]

/-- A tree whose only root entry is a leaf named `"3"` (a fully numeric name)
and which has no indexed node at all. -/
def t7 : List CtlNode := [.mk "3" CtlNodeType.leaf [] (some rcb0) none]

/-- Leaf `"b"` with a write callback, for the config-loader scenario. -/
def bNode : CtlNode := .mk "b" CtlNodeType.leaf [] none (some wcb0)

/-- Indexed node `"ai"` holding leaf `"b"`. -/
def aiNode : CtlNode := .mk "ai" CtlNodeType.indexed [bNode] none none

/-- Named node `"a"` holding the indexed node `"ai"`. -/
def aNode : CtlNode := .mk "a" CtlNodeType.named [aiNode] none none

/-- Leaf `"c"` with a write callback, for the config-loader scenario. -/
def cNode : CtlNode := .mk "c" CtlNodeType.leaf [] none (some wcb0)

/-- The config-loader scenario tree for the buffer `"a.0.b=1;c=2"`. -/
def t8 : List CtlNode := [aNode, cNode]

/-- A tree whose leaf `"c"` has a write callback returning the positive
status `2`. -/
def t8c : List CtlNode := [.mk "c" CtlNodeType.leaf [] none (some wcb2)]

/-! ### Helper lemmas -/

theorem memForest_nil {x : CtlNode} : ¬ MemForest x [] := by
  intro h
  cases h with
  | here h => cases h
  | via h _ => cases h

theorem memForest_tail {x n : CtlNode} {ns : List CtlNode}
    (h : MemForest x ns) : MemForest x (n :: ns) := by
  cases h with
  | here h => exact MemForest.here (List.mem_cons_of_mem _ h)
  | via h h2 => exact MemForest.via (List.mem_cons_of_mem _ h) h2

theorem memForest_cons {x n : CtlNode} {ns : List CtlNode} :
    MemForest x (n :: ns) ↔ x = n ∨ MemForest x n.children ∨ MemForest x ns := by
  constructor
  · intro h
    cases h with
    | here h =>
      rcases List.mem_cons.mp h with h | h
      · exact Or.inl h
      · exact Or.inr (Or.inr (MemForest.here h))
    | via h h2 =>
      rcases List.mem_cons.mp h with h | h
      · subst h; exact Or.inr (Or.inl h2)
      · exact Or.inr (Or.inr (MemForest.via h h2))
  · intro h
    rcases h with h | h | h
    · subst h; exact MemForest.here (List.mem_cons_self _ _)
    · exact MemForest.via (List.mem_cons_self _ _) h
    · exact memForest_tail h

theorem ctl_find_mem {p : Bool} {s : List Char} :
    ∀ {ns : List CtlNode} {nf : CtlNode}, ctl_find p s ns = some nf → nf ∈ ns := by
  intro ns
  induction ns with
  | nil => intro nf h; simp [ctl_find] at h
  | cons n ns ih =>
    intro nf h
    simp only [ctl_find] at h
    split at h
    · cases h; exact List.mem_cons_self _ _
    · exact List.mem_cons_of_mem _ (ih h)

theorem ctl_find_cond {p : Bool} {s : List Char} :
    ∀ {ns : List CtlNode} {nf : CtlNode}, ctl_find p s ns = some nf →
      ((p && (nf.ty == CtlNodeType.indexed)) || (nf.name.data == s)) = true := by
  intro ns
  induction ns with
  | nil => intro nf h; simp [ctl_find] at h
  | cons n ns ih =>
    intro nf h
    simp only [ctl_find] at h
    split at h
    · cases h; assumption
    · exact ih h

theorem dispatch_calls_idxs {n : CtlNode} {qt : CtlQueryType} {ra wa : Option String}
    {idxs : List CtlIndex} :
    ∀ c ∈ (ctl_dispatch n qt ra wa idxs).2, c.idxs = idxs := by
  intro c hc
  cases ra <;> cases wa <;> simp only [ctl_dispatch] at hc
  · cases hc
  · simp at hc; subst hc; rfl
  · simp at hc; subst hc; rfl
  · split at hc
    · simp only [List.mem_cons, List.not_mem_nil, or_false] at hc
      rcases hc with h | h <;> subst h <;> rfl
    · simp only [List.mem_cons, List.not_mem_nil, or_false] at hc
      subst hc; rfl

theorem resolve_err_einval :
    ∀ (segs : List (List Char)) (nodes : List CtlNode) (nOpt : Option CtlNode)
      (acc : List CtlIndex) (k : Nat) (e : Option Nat) (i : List CtlIndex) (a : Nat),
      resolveSegs oracleT nodes segs nOpt acc k = RRes.err e i a → e = some E_INVAL := by
  intro segs
  induction segs with
  | nil =>
    intro nodes nOpt acc k e i a h
    simp [resolveSegs] at h
  | cons seg rest ih =>
    intro nodes nOpt acc k e i a h
    simp only [resolveSegs, oracleT, if_true] at h
    split at h
    · split at h
      · injection h with h1 _ _; exact h1.symm
      · exact ih _ _ _ _ _ _ _ h
    · split at h
      · injection h with h1 _ _; exact h1.symm
      · exact ih _ _ _ _ _ _ _ h

theorem resolve_append (oracle : Nat → Bool) :
    ∀ (xs ys : List (List Char)) (nodes : List CtlNode) (nOpt : Option CtlNode)
      (acc : List CtlIndex) (k : Nat),
      resolveSegs oracle nodes (xs ++ ys) nOpt acc k =
        match resolveSegs oracle nodes xs nOpt acc k with
        | RRes.err e i a => RRes.err e i a
        | RRes.ok cur n i a => resolveSegs oracle cur ys n i a := by
  intro xs
  induction xs with
  | nil => intro ys nodes nOpt acc k; simp [resolveSegs]
  | cons seg rest ih =>
    intro ys nodes nOpt acc k
    simp only [List.cons_append, resolveSegs]
    split
    · split
      · split
        · simp
        · exact ih _ _ _ _ _
      · simp
    · split
      · simp
      · exact ih _ _ _ _ _

theorem resolve_alloc_balance (oracle : Nat → Bool) :
    ∀ (segs : List (List Char)) (nodes : List CtlNode) (nOpt : Option CtlNode)
      (acc : List CtlIndex) (k : Nat),
      (resolveSegs oracle nodes segs nOpt acc k).allocsOf + acc.length
        = k + (resolveSegs oracle nodes segs nOpt acc k).idxsOf.length := by
  intro segs
  induction segs with
  | nil =>
    intro nodes nOpt acc k
    simp [resolveSegs, RRes.allocsOf, RRes.idxsOf]
  | cons seg rest ih =>
    intro nodes nOpt acc k
    simp only [resolveSegs]
    split
    · split
      · split
        · simp [RRes.allocsOf, RRes.idxsOf]; omega
        · rename_i nf hfind
          have h := ih nf.children (some nf) (⟨(strtol0 seg).1, nf.name⟩ :: acc) (k + 1)
          simp only [List.length_cons] at h
          omega
      · simp [RRes.allocsOf, RRes.idxsOf]
    · split
      · simp [RRes.allocsOf, RRes.idxsOf]
      · exact ih _ _ _ _

theorem resolve_count_aux :
    ∀ (segs : List (List Char)) (nodes : List CtlNode) (nOpt : Option CtlNode)
      (acc : List CtlIndex) (k : Nat) (cur : List CtlNode) (n' : Option CtlNode)
      (i : List CtlIndex) (a : Nat),
      resolveSegs oracleT nodes segs nOpt acc k = RRes.ok cur n' i a →
      i.length = (segs.filter (fun s => (strtol0 s).2 != 0)).length + acc.length := by
  intro segs
  induction segs with
  | nil =>
    intro nodes nOpt acc k cur n' i a h
    simp only [resolveSegs] at h
    injection h with _ _ h3 _
    simp [← h3]
  | cons seg rest ih =>
    intro nodes nOpt acc k cur n' i a h
    simp only [resolveSegs, oracleT, if_true] at h
    by_cases hp : ((strtol0 seg).2 != 0) = true
    · rw [if_pos hp] at h
      split at h
      · exact absurd h (by simp)
      · have := ih _ _ _ _ _ _ _ _ h
        simp only [List.length_cons] at this
        simp [List.filter_cons, hp]
        omega
    · rw [if_neg hp] at h
      split at h
      · exact absurd h (by simp)
      · have := ih _ _ _ _ _ _ _ _ h
        simp only [List.filter_cons, hp, if_neg]
        simpa using this

/-! ### Theorems for the claims -/

/-- C2: on the tree root → Named "heap" → Indexed "arena" → Leaf "size" with a
read callback, `ctl_query` on path `"heap.3.size"` with a non-null read
argument and a null write argument resolves the leaf, invokes the read
callback exactly once with index list `[{3, "arena"}]`, sets no error, and
returns the callback's result. -/
theorem c2_concrete_scenario (rcb : Callback) (a : String) :
    (ctl_query (heapTree rcb) CtlQueryType.programmatic "heap.3.size" (some a) none).ret
        = rcb CtlQueryType.programmatic a [⟨3, "arena"⟩]
    ∧ (ctl_query (heapTree rcb) CtlQueryType.programmatic "heap.3.size" (some a) none).calls
        = [⟨false, CtlQueryType.programmatic, a, [⟨3, "arena"⟩]⟩]
    ∧ (ctl_query (heapTree rcb) CtlQueryType.programmatic "heap.3.size" (some a) none).errno
        = none :=
  ⟨rfl, rfl, rfl⟩

/-- C5: the claim says registration fails with a capacity error once
`CTL_MAX_ENTRIES` is exceeded, but `ctl_register_module_node` performs no
capacity check: after `CTL_MAX_ENTRIES` registrations the next call still
completes, incrementing `first_free` past the fixed array (the store at
`root[CTL_MAX_ENTRIES]` is out of bounds; in the embedding it leaves the array
unchanged). -/
theorem c5_register_unchecked :
    (ctl_register_module_node (regN CTL_MAX_ENTRIES) "overflow" []).first_free
        = CTL_MAX_ENTRIES + 1
    ∧ (ctl_register_module_node (regN CTL_MAX_ENTRIES) "overflow" []).root
        = (regN CTL_MAX_ENTRIES).root :=
  ⟨rfl, rfl⟩

/-- C6 counterexample: the segment `"3x"` is only partially numeric, yet the
query does not treat it as a plain name with no index: the leaf callback
receives the non-empty index list `[{3, "3x"}]`, because the code records a
pending index whenever `strtol` consumes a nonempty prefix. -/
theorem c6_partial_numeric_cex :
    (ctl_query t6 CtlQueryType.programmatic "3x" (some "a") none).calls
        = [⟨false, CtlQueryType.programmatic, "a", [⟨3, "3x"⟩]⟩]
    ∧ ([⟨3, "3x"⟩] : List CtlIndex) ≠ [] :=
  ⟨rfl, by decide⟩

/-- C7 counterexample: with a pending index (segment `"3"`), the claim says
the segment can match only an Indexed child and never a child by name, so on
a tree with no Indexed child it would fail with InvalidPath; the code instead
matches the leaf named `"3"` by name and dispatches successfully. -/
theorem c7_name_match_cex :
    (ctl_query t7 CtlQueryType.programmatic "3" (some "x") none).ret = 0
    ∧ (ctl_query t7 CtlQueryType.programmatic "3" (some "x") none).errno = none
    ∧ (ctl_query t7 CtlQueryType.programmatic "3" (some "x") none).calls
        = [⟨false, CtlQueryType.programmatic, "x", [⟨3, "3"⟩]⟩] :=
  ⟨rfl, rfl, rfl⟩

/-- C8 counterexample: a pair whose write callback fails with the positive
status `2` stops the loader, but `ctl_load_config` maps every nonnegative
loop result to `0`, so the loader reports success instead of returning that
pair's failure. -/
theorem c8_positive_failure_cex :
    (ctl_load_config t8c "c=2").1 = 0
    ∧ (ctl_query t8c CtlQueryType.configInput "c" none (some "2")).ret = 2 :=
  ⟨rfl, rfl⟩

/-- C10: for every allocation oracle (so on every exit path, including
allocation failures, path errors, arity errors and callback dispatch), the
number of heap allocations `ctl_query` performs (duplicated path string plus
index entries) equals the number of frees it performs before returning. -/
theorem c10_alloc_balance (oracle : Nat → Bool) (root : List CtlNode)
    (qt : CtlQueryType) (nm : String) (ra wa : Option String) :
    (ctl_query_alloc oracle root qt nm ra wa).allocs
      = (ctl_query_alloc oracle root qt nm ra wa).frees := by
  unfold ctl_query_alloc
  split
  · have hb := resolve_alloc_balance oracle (tokenizePath nm) root none [] 1
    cases hres : resolveSegs oracle root (tokenizePath nm) none [] 1 with
    | err e i a =>
      rw [hres] at hb
      simp only [RRes.allocsOf, RRes.idxsOf, List.length_nil] at hb
      simp only [hres]
      omega
    | ok cur nOpt i a =>
      rw [hres] at hb
      simp only [RRes.allocsOf, RRes.idxsOf, List.length_nil] at hb
      simp only [hres]
      cases nOpt with
      | none =>
        show a = i.length + 1
        omega
      | some n =>
        have hx : ∀ (c : Bool) (o1 o2 : QueryOutcome), o1.allocs = o1.frees →
            o2.allocs = o2.frees →
            (if c = true then o1 else o2).allocs = (if c = true then o1 else o2).frees := by
          intro c o1 o2 h1 h2
          cases c
          · simpa using h2
          · simpa using h1
        exact hx _ _ _ (show a = i.length + 1 by omega) (show a = i.length + 1 by omega)
  · rfl

/-- C4: a query with both arguments null fails with `errno = EINVAL` and a
negative return, invoking no callback, even when the path would resolve; and a
query whose supplied read or write argument has no corresponding callback on
the resolved leaf also fails with `errno = EINVAL`, a negative return, and no
callback invocation (hence no state mutation). -/
theorem c4_invalid_arguments :
    (∀ (root : List CtlNode) (qt : CtlQueryType) (nm : String),
      (ctl_query root qt nm none none).ret = -1
      ∧ (ctl_query root qt nm none none).errno = some E_INVAL
      ∧ (ctl_query root qt nm none none).calls = [])
    ∧ (∀ (root : List CtlNode) (qt : CtlQueryType) (nm : String) (ra wa : Option String)
        (cur : List CtlNode) (n : CtlNode) (idxs : List CtlIndex) (k : Nat),
        resolveSegs oracleT root (tokenizePath nm) none [] 1 = RRes.ok cur (some n) idxs k →
        ((ra.isSome ∧ n.read_cb = none) ∨ (wa.isSome ∧ n.write_cb = none)) →
        (ctl_query root qt nm ra wa).ret = -1
        ∧ (ctl_query root qt nm ra wa).errno = some E_INVAL
        ∧ (ctl_query root qt nm ra wa).calls = []) := by
  constructor
  · intro root qt nm
    unfold ctl_query ctl_query_alloc
    simp only [oracleT, if_true]
    cases hres : resolveSegs oracleT root (tokenizePath nm) none [] 1 with
    | err e i a =>
      have he := resolve_err_einval _ _ _ _ _ _ _ _ hres
      subst he
      simp [hres]
    | ok cur nOpt i a =>
      simp only [hres]
      cases nOpt with
      | none => simp
      | some n => simp
  · intro root qt nm ra wa cur n idxs k hres hmiss
    unfold ctl_query ctl_query_alloc
    simp only [oracleT, if_true]
    rw [hres]
    rcases hmiss with ⟨hra, hcb⟩ | ⟨hwa, hcb⟩
    · have : (ra.isSome && n.read_cb.isNone) = true := by
        rw [hra, hcb]; rfl
      simp [this]
    · have : (wa.isSome && n.write_cb.isNone) = true := by
        rw [hwa, hcb]; rfl
      simp [this]

/-- C4 witness: on the concrete scenario tree, the both-null query
`"heap.3.size"` and the write query against the read-only leaf both fail with
`EINVAL` and invoke no callback. -/
theorem c4_invalid_arguments_inst :
    ((ctl_query heapT CtlQueryType.programmatic "heap.3.size" none none).errno
        = some E_INVAL
      ∧ (ctl_query heapT CtlQueryType.programmatic "heap.3.size" none none).calls = [])
    ∧ ((ctl_query heapT CtlQueryType.programmatic "heap.3.size" none (some "v")).ret = -1
      ∧ (ctl_query heapT CtlQueryType.programmatic "heap.3.size" none (some "v")).calls
        = []) := by
  have h1 := c4_invalid_arguments.1 heapT CtlQueryType.programmatic "heap.3.size"
  have h2 := c4_invalid_arguments.2 heapT CtlQueryType.programmatic "heap.3.size"
    none (some "v") [] (sizeNode rcb0) [⟨3, "arena"⟩] 2 rfl (Or.inr ⟨rfl, rfl⟩)
  exact ⟨⟨h1.2.1, h1.2.2⟩, ⟨h2.1, h2.2.2⟩⟩

/-- C6 (amended): a pending index is recorded for a segment if and only if
the numeric parse consumes a nonempty prefix of it (`endptr != node_name`),
not only when the entire segment is consumed; on every successfully resolved
path the index list has exactly one entry per segment with a nonempty numeric
prefix. -/
theorem c6_pending_iff_consumed (root : List CtlNode) (nm : String)
    (cur : List CtlNode) (nOpt : Option CtlNode) (idxs : List CtlIndex) (k : Nat)
    (h : resolveSegs oracleT root (tokenizePath nm) none [] 1 = RRes.ok cur nOpt idxs k) :
    idxs.length = ((tokenizePath nm).filter (fun s => (strtol0 s).2 != 0)).length := by
  have hc := resolve_count_aux _ _ _ _ _ _ _ _ _ h
  simpa using hc

/-- C6 witness: the partially numeric path `"3x"` resolves on the tree with
leaf `"3x"` and yields exactly one index entry, matching its one segment with
a nonempty numeric prefix. -/
theorem c6_pending_iff_consumed_inst :
    ([(⟨3, "3x"⟩ : CtlIndex)] : List CtlIndex).length
      = ((tokenizePath "3x").filter (fun s => (strtol0 s).2 != 0)).length :=
  c6_pending_iff_consumed t6 "3x" []
    (some (CtlNode.mk "3x" CtlNodeType.leaf [] (some rcb0) none)) [⟨3, "3x"⟩] 2 rfl

/-- C9: when a path segment resolves to a leaf (whose child array is empty;
the leaf child arrays are not part of the visible source and are modelled
from the spec as empty) and further segments remain, `ctl_query` fails with
`errno = EINVAL` (the same observable as InvalidPath), a negative return and
no callback invocation. -/
theorem c9_trailing_after_leaf (root : List CtlNode) (qt : CtlQueryType) (nm : String)
    (ra wa : Option String) (pre : List (List Char)) (s : List Char)
    (rest : List (List Char)) (n : CtlNode) (idxs : List CtlIndex) (k : Nat)
    (hpath : tokenizePath nm = pre ++ s :: rest)
    (hres : resolveSegs oracleT root pre none [] 1 = RRes.ok [] (some n) idxs k)
    (_hleaf : n.ty = CtlNodeType.leaf) :
    (ctl_query root qt nm ra wa).ret = -1
    ∧ (ctl_query root qt nm ra wa).errno = some E_INVAL
    ∧ (ctl_query root qt nm ra wa).calls = [] := by
  unfold ctl_query ctl_query_alloc
  simp only [oracleT, if_true]
  rw [hpath, resolve_append oracleT pre (s :: rest) root none [] 1, hres]
  have hstep : ∃ i2 a2, resolveSegs oracleT [] (s :: rest) (some n) idxs k
      = RRes.err (some E_INVAL) i2 a2 := by
    simp only [resolveSegs, ctl_find, oracleT, if_true]
    split
    · exact ⟨_, _, rfl⟩
    · exact ⟨_, _, rfl⟩
  rcases hstep with ⟨i2, a2, hstep⟩
  simp [hstep]

theorem query_calls_idxs (root : List CtlNode) (qt : CtlQueryType) (nm : String)
    (ra wa : Option String) (cur : List CtlNode) (n : CtlNode) (idxs : List CtlIndex)
    (k : Nat)
    (h : resolveSegs oracleT root (tokenizePath nm) none [] 1 = RRes.ok cur (some n) idxs k) :
    ∀ c ∈ (ctl_query root qt nm ra wa).calls, c.idxs = idxs := by
  intro c hc
  unfold ctl_query ctl_query_alloc at hc
  simp only [oracleT, if_true, h] at hc
  cases hcond : ((ra.isSome && n.read_cb.isNone) || (wa.isSome && n.write_cb.isNone)
      || (ra.isNone && wa.isNone)) with
  | true =>
    simp only [hcond, if_true] at hc
    cases hc
  | false =>
    simp only [hcond] at hc
    exact dispatch_calls_idxs c hc

theorem resolve_c1_aux :
    ∀ (segs : List (List Char)) (root nodes : List CtlNode) (nOpt : Option CtlNode)
      (acc : List CtlIndex) (k : Nat) (cur : List CtlNode) (n' : Option CtlNode)
      (i : List CtlIndex) (a : Nat),
      resolveSegs oracleT nodes segs nOpt acc k = RRes.ok cur n' i a →
      (∀ x, MemForest x nodes → MemForest x root) →
      NoNumNames root →
      (i.map (fun e => e.value)
          = ((segs.filter (fun s => (strtol0 s).2 != 0)).map
              (fun s => (strtol0 s).1)).reverse
            ++ acc.map (fun e => e.value))
      ∧ (∀ e ∈ i, e ∈ acc ∨ ∃ nd, MemForest nd root ∧ nd.ty = CtlNodeType.indexed
            ∧ nd.name = e.name) := by
  intro segs
  induction segs with
  | nil =>
    intro root nodes nOpt acc k cur n' i a h hsub hnn
    simp only [resolveSegs] at h
    injection h with _ _ h3 _
    subst h3
    constructor
    · simp
    · intro e he
      exact Or.inl he
  | cons seg rest ih =>
    intro root nodes nOpt acc k cur n' i a h hsub hnn
    simp only [resolveSegs, oracleT, if_true] at h
    by_cases hp : ((strtol0 seg).2 != 0) = true
    · rw [if_pos hp] at h
      cases hfind : ctl_find true seg nodes with
      | none => rw [hfind] at h; exact absurd h (by simp)
      | some nf =>
        rw [hfind] at h
        have hmem : MemForest nf root := hsub nf (MemForest.here (ctl_find_mem hfind))
        have hty : nf.ty = CtlNodeType.indexed := by
          have hcd := ctl_find_cond hfind
          simp only [Bool.true_and, Bool.or_eq_true, beq_iff_eq] at hcd
          rcases hcd with hl | hr
          · exact hl
          · exfalso
            have h0 := hnn nf hmem
            rw [hr] at h0
            rw [bne_iff_ne] at hp
            exact hp h0
        have hsub' : ∀ x, MemForest x nf.children → MemForest x root := by
          intro x hx
          exact hsub x (MemForest.via (ctl_find_mem hfind) hx)
        have ih' := ih root nf.children (some nf)
          (⟨(strtol0 seg).1, nf.name⟩ :: acc) (k + 1) cur n' i a h hsub' hnn
        constructor
        · rw [ih'.1,
            @List.filter_cons_of_pos (List Char) (fun s => (strtol0 s).2 != 0) seg rest hp]
          simp [List.append_assoc]
        · intro e he
          rcases ih'.2 e he with hacc | hex
          · rcases List.mem_cons.mp hacc with he1 | he2
            · subst he1
              exact Or.inr ⟨nf, hmem, hty, rfl⟩
            · exact Or.inl he2
          · exact Or.inr hex
    · rw [if_neg hp] at h
      cases hfind : ctl_find false seg nodes with
      | none => rw [hfind] at h; exact absurd h (by simp)
      | some nf =>
        rw [hfind] at h
        have hsub' : ∀ x, MemForest x nf.children → MemForest x root := by
          intro x hx
          exact hsub x (MemForest.via (ctl_find_mem hfind) hx)
        have ih' := ih root nf.children (some nf) acc k cur n' i a h hsub' hnn
        have hpf : ((strtol0 seg).2 != 0) = false := Bool.eq_false_iff.mpr hp
        constructor
        · rw [ih'.1,
            @List.filter_cons_of_neg (List Char) (fun s => (strtol0 s).2 != 0) seg rest
              (by simp [hpf])]
        · exact ih'.2

/-- C1: for every path that resolves successfully on a tree whose node names
carry no numeric prefix (the namespace-construction convention), the index
list handed to the leaf callbacks has exactly one entry per index segment
(segment with a nonempty numeric parse), its values are the segments' parsed
values ordered innermost-first (most recently parsed first), every entry's
name is the name of an Indexed node of the tree, and every callback
invocation of the query receives exactly this list. -/
theorem c1_index_list_shape (root : List CtlNode) (nm : String) (cur : List CtlNode)
    (n : CtlNode) (idxs : List CtlIndex) (k : Nat)
    (hnn : NoNumNames root)
    (h : resolveSegs oracleT root (tokenizePath nm) none [] 1 = RRes.ok cur (some n) idxs k) :
    idxs.map (fun e => e.value)
        = (((tokenizePath nm).filter (fun s => (strtol0 s).2 != 0)).map
            (fun s => (strtol0 s).1)).reverse
    ∧ idxs.length = ((tokenizePath nm).filter (fun s => (strtol0 s).2 != 0)).length
    ∧ (∀ e ∈ idxs, ∃ nd, MemForest nd root ∧ nd.ty = CtlNodeType.indexed
          ∧ nd.name = e.name)
    ∧ (∀ qt ra wa, ∀ c ∈ (ctl_query root qt nm ra wa).calls, c.idxs = idxs) := by
  have haux := resolve_c1_aux (tokenizePath nm) root root none [] 1 cur (some n) idxs k h
    (fun x hx => hx) hnn
  refine ⟨by simpa using haux.1, ?_, ?_, ?_⟩
  · have hc := resolve_count_aux _ _ _ _ _ _ _ _ _ h
    simpa using hc
  · intro e he
    rcases haux.2 e he with hacc | hex
    · simp at hacc
    · exact hex
  · intro qt ra wa
    exact query_calls_idxs root qt nm ra wa cur n idxs k h

theorem noNum_heapT : NoNumNames heapT := by
  intro x hx
  rcases memForest_cons.mp hx with h | h | h
  · subst h; rfl
  · rcases memForest_cons.mp h with h2 | h2 | h2
    · subst h2; rfl
    · rcases memForest_cons.mp h2 with h3 | h3 | h3
      · subst h3; rfl
      · exact absurd h3 memForest_nil
      · exact absurd h3 memForest_nil
    · exact absurd h2 memForest_nil
  · exact absurd h memForest_nil

/-- C1 witness: resolving `"heap.3.size"` on the concrete scenario tree
yields the index list `[{3, "arena"}]`, whose single entry names the Indexed
node `"arena"`. -/
theorem c1_index_list_shape_inst :
    ([(⟨3, "arena"⟩ : CtlIndex)].map (fun e => e.value)
        = (((tokenizePath "heap.3.size").filter (fun s => (strtol0 s).2 != 0)).map
            (fun s => (strtol0 s).1)).reverse)
    ∧ (∀ e ∈ ([(⟨3, "arena"⟩ : CtlIndex)] : List CtlIndex),
        ∃ nd, MemForest nd heapT ∧ nd.ty = CtlNodeType.indexed ∧ nd.name = e.name) := by
  have h := c1_index_list_shape heapT "heap.3.size" [] (sizeNode rcb0) [⟨3, "arena"⟩] 2
    noNum_heapT rfl
  exact ⟨h.1, h.2.2.1⟩

/-- C3: once a query has resolved to a leaf and passed the arity checks, the
read callback is invoked first whenever a read argument is present; the write
callback is invoked only when a write argument is present and the read step
(if any) returned `0`; and the overall result is `0` when every invoked
callback returns `0`, otherwise the first nonzero callback result. -/
theorem c3_dispatch_contract (root : List CtlNode) (qt : CtlQueryType) (nm : String)
    (ra wa : Option String) (cur : List CtlNode) (n : CtlNode) (idxs : List CtlIndex)
    (k : Nat)
    (h : resolveSegs oracleT root (tokenizePath nm) none [] 1 = RRes.ok cur (some n) idxs k)
    (hr : ra.isSome = true → n.read_cb.isSome = true)
    (hw : wa.isSome = true → n.write_cb.isSome = true)
    (hrw : ra.isSome = true ∨ wa.isSome = true) :
    (∀ a f, ra = some a → n.read_cb = some f →
      ((ctl_query root qt nm ra wa).calls.head? = some ⟨false, qt, a, idxs⟩
      ∧ (f qt a idxs ≠ 0 →
          (ctl_query root qt nm ra wa).ret = f qt a idxs
          ∧ (ctl_query root qt nm ra wa).calls = [⟨false, qt, a, idxs⟩])
      ∧ (f qt a idxs = 0 → wa = none →
          (ctl_query root qt nm ra wa).ret = 0
          ∧ (ctl_query root qt nm ra wa).calls = [⟨false, qt, a, idxs⟩])
      ∧ (∀ b g, f qt a idxs = 0 → wa = some b → n.write_cb = some g →
          (ctl_query root qt nm ra wa).ret = g qt b idxs
          ∧ (ctl_query root qt nm ra wa).calls
              = [⟨false, qt, a, idxs⟩, ⟨true, qt, b, idxs⟩])))
    ∧ (∀ b g, ra = none → wa = some b → n.write_cb = some g →
        (ctl_query root qt nm ra wa).ret = g qt b idxs
        ∧ (ctl_query root qt nm ra wa).calls = [⟨true, qt, b, idxs⟩]) := by
  have hcond : ((ra.isSome && n.read_cb.isNone) || (wa.isSome && n.write_cb.isNone)
      || (ra.isNone && wa.isNone)) = false := by
    cases hra : ra with
    | none =>
      cases hwa : wa with
      | none =>
        exfalso
        rcases hrw with hx | hx
        · rw [hra] at hx; exact absurd hx (by simp)
        · rw [hwa] at hx; exact absurd hx (by simp)
      | some b =>
        have hwcb := hw (by rw [hwa]; rfl)
        rcases Option.isSome_iff_exists.mp hwcb with ⟨g, hg⟩
        simp [hg]
    | some a =>
      have hrcb := hr (by rw [hra]; rfl)
      rcases Option.isSome_iff_exists.mp hrcb with ⟨f, hf⟩
      cases hwa : wa with
      | none => simp [hf]
      | some b =>
        have hwcb := hw (by rw [hwa]; rfl)
        rcases Option.isSome_iff_exists.mp hwcb with ⟨g, hg⟩
        simp [hf, hg]
  have hq : ctl_query root qt nm ra wa
      = { ret := (ctl_dispatch n qt ra wa idxs).1, errno := none,
          calls := (ctl_dispatch n qt ra wa idxs).2, allocs := k,
          frees := idxs.length + 1 } := by
    unfold ctl_query ctl_query_alloc
    simp only [oracleT, if_true, h, hcond]
    simp
  constructor
  · intro a f hra hf
    subst hra
    constructor
    · rw [hq]
      cases hwa : wa with
      | none => simp [ctl_dispatch]
      | some b =>
        simp only [ctl_dispatch, hf, Option.getD_some]
        split <;> rfl
    constructor
    · intro hnz
      rw [hq]
      cases hwa : wa with
      | none => simp [ctl_dispatch, hf]
      | some b =>
        simp only [ctl_dispatch, hf, Option.getD_some]
        rw [if_neg hnz]
        exact ⟨rfl, rfl⟩
    constructor
    · intro hz hwa
      subst hwa
      rw [hq]
      simp [ctl_dispatch, hf, hz]
    · intro b g hz hwa hg
      subst hwa
      rw [hq]
      simp only [ctl_dispatch, hf, hg, Option.getD_some]
      rw [if_pos hz]
      exact ⟨rfl, rfl⟩
  · intro b g hra hwa hg
    subst hra
    subst hwa
    rw [hq]
    simp [ctl_dispatch, hg]

/-- C3 witness: on the concrete scenario tree with the zero-returning read
callback, the read-only query `"heap.3.size"` returns `0` after exactly one
read invocation. -/
theorem c3_dispatch_contract_inst :
    (ctl_query heapT CtlQueryType.programmatic "heap.3.size" (some "r") none).ret = 0
    ∧ (ctl_query heapT CtlQueryType.programmatic "heap.3.size" (some "r") none).calls
      = [⟨false, CtlQueryType.programmatic, "r", [⟨3, "arena"⟩]⟩] := by
  have h := (c3_dispatch_contract heapT CtlQueryType.programmatic "heap.3.size"
    (some "r") none [] (sizeNode rcb0) [⟨3, "arena"⟩] 2 rfl
    (fun _ => rfl) (by intro hx; simp at hx) (Or.inl rfl)).1
    "r" rcb0 rfl rfl
  exact h.2.2.1 rfl rfl

/-- C7 (amended): during the scan, a segment with a pending index matches the
first child that is either Indexed or whose name equals the segment text (a
name match is still possible while an index is pending); without a pending
index it matches the first child with equal name; and when no child matches,
the query takes the `errno = EINVAL` error exit. -/
theorem c7_scan_rule :
    (∀ (pending : Bool) (seg : List Char) (ns : List CtlNode),
      ctl_find pending seg ns
        = ns.find? (fun n => (pending && (n.ty == CtlNodeType.indexed))
            || (n.name.data == seg)))
    ∧ (∀ (nodes : List CtlNode) (seg : List Char) (rest : List (List Char))
        (nOpt : Option CtlNode) (acc : List CtlIndex) (k : Nat),
        ctl_find ((strtol0 seg).2 != 0) seg nodes = none →
        ∃ i a, resolveSegs oracleT nodes (seg :: rest) nOpt acc k
          = RRes.err (some E_INVAL) i a) := by
  constructor
  · intro pending seg ns
    induction ns with
    | nil => rfl
    | cons n ns ih =>
      simp only [ctl_find]
      by_cases hc : ((pending && (n.ty == CtlNodeType.indexed)) || (n.name.data == seg))
          = true
      · rw [if_pos hc]
        exact (@List.find?_cons_of_pos CtlNode
          (fun n => (pending && (n.ty == CtlNodeType.indexed)) || (n.name.data == seg))
          n ns hc).symm
      · rw [if_neg hc, ih]
        exact (@List.find?_cons_of_neg CtlNode
          (fun n => (pending && (n.ty == CtlNodeType.indexed)) || (n.name.data == seg))
          n ns hc).symm
  · intro nodes seg rest nOpt acc k hfind
    simp only [resolveSegs, oracleT, if_true]
    by_cases hp : ((strtol0 seg).2 != 0) = true
    · rw [hp] at hfind
      rw [if_pos hp, hfind]
      exact ⟨_, _, rfl⟩
    · have hpf : ((strtol0 seg).2 != 0) = false := Bool.eq_false_iff.mpr hp
      rw [hpf] at hfind
      rw [if_neg hp, hfind]
      exact ⟨_, _, rfl⟩

/-- C7 witness: the scan equals the first-match rule on the concrete scenario
tree, and an unmatched segment takes the `EINVAL` exit. -/
theorem c7_scan_rule_inst :
    ctl_find true "3".data heapT
      = heapT.find? (fun n => (true && (n.ty == CtlNodeType.indexed))
          || (n.name.data == "3".data))
    ∧ ∃ i a, resolveSegs oracleT heapT ["zzz".data] none [] 1
        = RRes.err (some E_INVAL) i a :=
  ⟨c7_scan_rule.1 true "3".data heapT,
   c7_scan_rule.2 heapT "zzz".data [] none [] 1 rfl⟩

theorem load_all_ok (root : List CtlNode) :
    ∀ (es : List (List Char)), (∀ e ∈ es, EntryOk root e) →
      (loadEntries root es).1 = 1 := by
  intro es
  induction es with
  | nil => intro _; rfl
  | cons e rest ih =>
    intro h
    rcases h e (List.mem_cons_self _ _) with ⟨n, v, hp, hr⟩
    simp only [loadEntries, hp, hr, if_pos]
    exact ih (fun x hx => h x (List.mem_cons_of_mem _ hx))

theorem load_append (root : List CtlNode) :
    ∀ (es1 es2 : List (List Char)), (∀ e ∈ es1, EntryOk root e) →
      loadEntries root (es1 ++ es2)
        = ((loadEntries root es2).1,
           (loadEntries root es1).2 ++ (loadEntries root es2).2) := by
  intro es1
  induction es1 with
  | nil => intro es2 _; simp [loadEntries]
  | cons e rest ih =>
    intro es2 h
    rcases h e (List.mem_cons_self _ _) with ⟨n, v, hp, hr⟩
    have ih' := ih es2 (fun x hx => h x (List.mem_cons_of_mem _ hx))
    simp only [List.cons_append, loadEntries, hp, hr, if_pos]
    simp [ih', List.append_assoc]

/-- C8 (amended): loading `"a.0.b=1;c=2"` applies a write-only query to
`a.0.b` (index list `[{0, "ai"}]`) and then to `c`, in that order, returning
success at exhaustion; each entry must split into exactly two `=`-tokens;
the loader stops at the first failing pair, returning `-1` when the failing
status is negative but `0` (success) when it is positive, because the final
loop result is mapped by `r >= 0 ? 0 : -1`. -/
theorem c8_loader_contract :
    (ctl_load_config t8 "a.0.b=1;c=2"
        = (0, [⟨true, CtlQueryType.configInput, "1", [⟨0, "ai"⟩]⟩,
               ⟨true, CtlQueryType.configInput, "2", []⟩]))
    ∧ (ctl_load_config t8 "a.b;c=2" = (-1, []))
    ∧ (∀ (e : List Char) (n v : String),
        ctl_string_provider_parse_query (some e) = PQRes.okq n v ↔
          splitFields e = [n.data, v.data])
    ∧ (∀ (root : List CtlNode) (buf : String) (es1 : List (List Char)) (e : List Char)
        (es2 : List (List Char)),
        strTokens ';' buf = es1 ++ e :: es2 →
        (∀ x ∈ es1, EntryOk root x) →
        ctl_string_provider_parse_query (some e) = PQRes.errFmt →
        ctl_load_config root buf = (-1, (loadEntries root es1).2))
    ∧ (∀ (root : List CtlNode) (buf : String) (es1 : List (List Char)) (e : List Char)
        (es2 : List (List Char)) (n v : String),
        strTokens ';' buf = es1 ++ e :: es2 →
        (∀ x ∈ es1, EntryOk root x) →
        ctl_string_provider_parse_query (some e) = PQRes.okq n v →
        (ctl_query root CtlQueryType.configInput n none (some v)).ret ≠ 0 →
        ctl_load_config root buf
          = ((if (ctl_query root CtlQueryType.configInput n none (some v)).ret ≥ 0
              then 0 else -1),
             (loadEntries root es1).2
               ++ (ctl_query root CtlQueryType.configInput n none (some v)).calls))
    ∧ (∀ (root : List CtlNode) (buf : String),
        (∀ x ∈ strTokens ';' buf, EntryOk root x) →
        (ctl_load_config root buf).1 = 0) := by
  refine ⟨rfl, rfl, ?_, ?_, ?_, ?_⟩
  · intro e n v
    constructor
    · intro h
      simp only [ctl_string_provider_parse_query] at h
      cases hsp : splitFields e with
      | nil => rw [hsp] at h; simp at h
      | cons x t =>
        cases t with
        | nil => rw [hsp] at h; simp at h
        | cons y t2 =>
          cases t2 with
          | nil =>
            rw [hsp] at h
            simp only [List.get?] at h
            injection h with h1 h2
            rw [← h1, ← h2]
          | cons z t3 => rw [hsp] at h; simp at h
    · intro h
      simp only [ctl_string_provider_parse_query, h]
      rfl
  · intro root buf es1 e es2 hbuf hok hpe
    unfold ctl_load_config
    rw [hbuf, load_append root es1 (e :: es2) hok]
    simp only [loadEntries, hpe]
    simp
  · intro root buf es1 e es2 n v hbuf hok hpe hr
    unfold ctl_load_config
    rw [hbuf, load_append root es1 (e :: es2) hok]
    simp only [loadEntries, hpe, if_neg hr]
  · intro root buf hok
    show (if (loadEntries root (strTokens ';' buf)).1 ≥ 0 then (0 : Int) else -1) = 0
    rw [load_all_ok root _ hok]
    rfl

/-- C8 witness: with the malformed entry `"a.b"` in the middle, the loader
applies `"a.0.b=1"`, stops at `"a.b"` and returns the failure, never applying
`"c=2"`. -/
theorem c8_loader_contract_inst :
    ctl_load_config t8 "a.0.b=1;a.b;c=2" = (-1, (loadEntries t8 ["a.0.b=1".data]).2) := by
  refine c8_loader_contract.2.2.2.1 t8 "a.0.b=1;a.b;c=2" ["a.0.b=1".data] "a.b".data
    ["c=2".data] rfl ?_ rfl
  intro x hx
  simp only [List.mem_cons, List.not_mem_nil, or_false] at hx
  subst hx
  exact ⟨"a.0.b", "1", rfl, rfl⟩

/-- C9 witness: on the concrete scenario tree, the path
`"heap.3.size.extra"` (a trailing segment after leaf `"size"`) fails with
`EINVAL` and invokes no callback. -/
theorem c9_trailing_after_leaf_inst :
    (ctl_query heapT CtlQueryType.programmatic "heap.3.size.extra" (some "r") none).errno
      = some E_INVAL
    ∧ (ctl_query heapT CtlQueryType.programmatic "heap.3.size.extra" (some "r") none).calls
      = [] := by
  have h := c9_trailing_after_leaf heapT CtlQueryType.programmatic "heap.3.size.extra"
    (some "r") none ["heap".data, "3".data, "size".data] "extra".data []
    (sizeNode rcb0) [⟨3, "arena"⟩] 2 rfl rfl rfl
  exact ⟨h.2.1, h.2.2⟩

end CtlSpec
